import Mathlib

/-!
Verification of the custom 2D convolution operator, the PGD adversarial
attack and the gradient-saliency explainer of `a2/code/student_code.py`.

Tensors are modelled as total functions from natural-number indices to
rationals, carried together with their shape.  The reverse-mode autodiff
engine of the tensor library is modelled as an oracle (`DiffModel.gradLoss`)
supplying the gradient of the loss with respect to a queried tensor, as the
design document phrases it ("the gradient of Y w.r.t. X is computed by the
environment").  Fallible code (the asserts of the forward pass, and the
unconditional dereference of an absent bias) is modelled with `Option`.
-/

/-- Rank-4 tensor data: batch, channel, height, width index to a rational. -/
abbrev Arr4 : Type := ℕ → ℕ → ℕ → ℕ → ℚ

/-- Rank-3 tensor data (the unfolded window tensor). -/
abbrev Arr3 : Type := ℕ → ℕ → ℕ → ℚ

/-- Rank-1 tensor data. -/
abbrev Arr1 : Type := ℕ → ℚ

/-- A rank-4 tensor: shape together with its entries. -/
structure Tensor4 where
  s0 : ℕ
  s1 : ℕ
  s2 : ℕ
  s3 : ℕ
  data : Arr4

/-- A rank-1 tensor: length together with its entries. -/
structure Tensor1 where
  s0 : ℕ
  data : Arr1

/-- Spatial output size of the convolution, `1 + (H + 2*padding - K) // stride`
(line 64 of the source; natural subtraction agrees with the Python integer
arithmetic because the forward pass asserts `K ≤ H + 2*padding`). -/
def hOut (H K s p : ℕ) : ℕ := (H + 2 * p - K) / s + 1

/-- Zero padding of both spatial dimensions by `p` on each side. -/
def padded (x : Arr4) (H W p : ℕ) : Arr4 := fun n c yy zz =>
  if p ≤ yy ∧ yy < H + p ∧ p ≤ zz ∧ zz < W + p then x n c (yy - p) (zz - p) else 0

/-- `torch.nn.functional.unfold(input, K, padding, stride)`: the sliding-window
(im2col) tensor of shape (N, C*K*K, L), L = H_out*W_out.  Element
`[n, i*K*K + a*K + b, u*W_out + v]` is the padded input at
`(n, i, u*stride + a, v*stride + b)`; the window index runs row-major over
output positions and the flattened channel index runs channel-major over the
kernel offsets, exactly torch's layout. -/
def unfoldT (x : Arr4) (H W K s p : ℕ) : Arr3 := fun n c l =>
  padded x H W p n (c / (K * K))
    ((l / hOut W K s p) * s + (c % (K * K)) / K)
    ((l % hOut W K s p) * s + c % K)

/-- `weight.view(C_o, C_i * K * K)` (line 67 of the source). -/
def wflat (w : Arr4) (K : ℕ) : ℕ → ℕ → ℚ := fun o c =>
  w o (c / (K * K)) ((c % (K * K)) / K) (c % K)

/-- The forward computation of the operator (lines 66-69 of the source):
`einsum('ncw,oc->now', windows, kernels).view(-1, C_o, H_o, W_o) + bias`.
Entry (n, o, u, v) is the contraction of window `u*W_out + v` with the
flattened filter `o`, plus the bias of channel `o`. -/
def convData (x w : Arr4) (b : Arr1) (Ci H W K s p : ℕ) : Arr4 := fun n o u v =>
  (∑ c ∈ Finset.range (Ci * (K * K)),
      unfoldT x H W K s p n c (u * hOut W K s p + v) * wflat w K o c) + b o

/-- The context saved by `forward` for the paired `backward` call:
the unfolded window tensor, the weight, the (optional) bias and the four
scalar parameters (`ctx.stride`, `ctx.padding`, `ctx.batch_size`,
`ctx.input_height`, `ctx.input_width`). -/
structure ConvCtx where
  windows : Arr3
  weight : Tensor4
  bias : Option Tensor1
  stride : ℕ
  padding : ℕ
  batch : ℕ
  inH : ℕ
  inW : ℕ

/-- `CustomConv2DFunction.forward` (lines 26-74 of the source).  The five
asserts (square kernel, matching channel count, positive integer stride,
non-negative integer padding, kernel not exceeding the padded input in either
spatial dimension) are the guard; a failing assert aborts the call with no
result, modelled by `none`.  Stride and padding are integers by the typing of
the embedding, which is what the `isinstance(.., int)` asserts enforce.
When `bias` is `None` the source crashes at line 69 (`bias.view` on `None`),
so that call also produces no result.  (The library `unfold` additionally
rejects degenerate calls - an empty kernel or empty input dimensions - which
none of the repository's layers produce; the embedding extends the
contraction semantics totally to those empty cases.) -/
def CustomConv2DFunction.forward (x w : Tensor4) (bias : Option Tensor1)
    (stride padding : ℤ) : Option (Tensor4 × ConvCtx) :=
  if w.s2 = w.s3 ∧ x.s1 = w.s1 ∧ 0 < stride ∧ 0 ≤ padding
      ∧ (w.s2 : ℤ) ≤ (x.s2 : ℤ) + 2 * padding
      ∧ (w.s2 : ℤ) ≤ (x.s3 : ℤ) + 2 * padding then
    match bias with
    | none => none
    | some b =>
      some ({ s0 := x.s0, s1 := w.s0,
              s2 := hOut x.s2 w.s2 stride.toNat padding.toNat,
              s3 := hOut x.s3 w.s2 stride.toNat padding.toNat,
              data := convData x.data w.data b.data w.s1 x.s2 x.s3 w.s2
                        stride.toNat padding.toNat },
            { windows := unfoldT x.data x.s2 x.s3 w.s2 stride.toNat padding.toNat,
              weight := w, bias := some b,
              stride := stride.toNat, padding := padding.toNat,
              batch := x.s0, inH := x.s2, inW := x.s3 })
  else none

/-- `einsum('nouv,oiab->niabuv', grad_output, weight).view(N, Ci*K*K, L)`
(lines 109-110 of the source): the per-window gradients, contracting the
upstream gradient with the weight over the output-channel axis. -/
def gradWindows (g w : Arr4) (Co K Wo : ℕ) : Arr3 := fun n c l =>
  ∑ o ∈ Finset.range Co,
    g n o (l / Wo) (l % Wo) * w o (c / (K * K)) ((c % (K * K)) / K) (c % K)

/-- `torch.nn.functional.fold(gw, (H, W), K, padding, stride)`: scatter-add of
the per-window gradients back into the padded canvas, then stripping the
padding border; position (y, z) of the result receives the contribution of
every window offset (a, b) whose padded position `(u*s + a, v*s + b)` equals
`(y + p, z + p)`. Overlapping contributions sum. -/
def foldT (gw : Arr3) (K s p Ho Wo : ℕ) : Arr4 := fun n i y z =>
  ∑ l ∈ Finset.range (Ho * Wo), ∑ a ∈ Finset.range K, ∑ b ∈ Finset.range K,
    if (l / Wo) * s + a = y + p ∧ (l % Wo) * s + b = z + p then
      gw n (i * (K * K) + a * K + b) l
    else 0

/-- `CustomConv2DFunction.backward` (lines 76-123 of the source), with the
three entries of `ctx.needs_input_grad` passed explicitly.  Gradients that are
not requested are `none` (the source returns `None` for them); `grad_bias` is
additionally `none` whenever no bias was saved.  The source's two trailing
`None` returns (for stride and padding) carry no information and are
omitted. -/
def CustomConv2DFunction.backward (ctx : ConvCtx) (gOut : Tensor4)
    (needs0 needs1 needs2 : Bool) :
    Option Tensor4 × Option Tensor4 × Option Tensor1 :=
  ( if needs0 then
      some { s0 := ctx.batch, s1 := ctx.weight.s1, s2 := ctx.inH, s3 := ctx.inW,
             data := foldT
               (gradWindows gOut.data ctx.weight.data gOut.s1 ctx.weight.s2 gOut.s3)
               ctx.weight.s2 ctx.stride ctx.padding gOut.s2 gOut.s3 }
    else none,
    if needs1 then
      some { s0 := gOut.s1, s1 := ctx.weight.s1, s2 := ctx.weight.s2, s3 := ctx.weight.s2,
             data := fun o i a b =>
               ∑ n ∈ Finset.range ctx.batch, ∑ u ∈ Finset.range gOut.s2,
                 ∑ v ∈ Finset.range gOut.s3,
                   gOut.data n o u v *
                     ctx.windows n
                       (i * (ctx.weight.s2 * ctx.weight.s2) + a * ctx.weight.s2 + b)
                       (u * gOut.s3 + v) }
    else none,
    match ctx.bias with
    | some _ =>
      if needs2 then
        some { s0 := gOut.s1,
               data := fun o =>
                 ∑ n ∈ Finset.range gOut.s0, ∑ u ∈ Finset.range gOut.s2,
                   ∑ v ∈ Finset.range gOut.s3, gOut.data n o u v }
      else none
    | none => none )

/-- The scalar functional `L(out) = Σ g ⊙ out` over the forward output range.
The true analytic gradient of the forward pass with upstream gradient `g` at
some coordinate of an argument is the derivative of this functional in that
coordinate; because the forward computation is affine in each of its three
arguments, that derivative equals the exact finite difference
`L(argument + one-hot) − L(argument)`. -/
def convLoss (g x w : Arr4) (b : Arr1) (N Ci H W Co K s p : ℕ) : ℚ :=
  ∑ n ∈ Finset.range N, ∑ o ∈ Finset.range Co,
    ∑ u ∈ Finset.range (hOut H K s p), ∑ v ∈ Finset.range (hOut W K s p),
      g n o u v * convData x w b Ci H W K s p n o u v

/-- One-hot rank-4 tensor: 1 at coordinate (m, i, y, z) and 0 elsewhere. -/
def oneHot4 (m i y z : ℕ) : Arr4 := fun n c h w =>
  if n = m ∧ c = i ∧ h = y ∧ w = z then 1 else 0

/-- One-hot rank-1 tensor. -/
def oneHot1 (o : ℕ) : Arr1 := fun j => if j = o then 1 else 0

/-- Pointwise sum of rank-4 tensor data. -/
def addArr4 (f g : Arr4) : Arr4 := fun n c h w => f n c h w + g n c h w

/-- `torch.sign` on rationals. -/
def qsign (x : ℚ) : ℚ := if 0 < x then 1 else if x < 0 then -1 else 0

/-- `torch.clamp(x, lo, hi) = min(max(x, lo), hi)`. -/
def clampQ (x lo hi : ℚ) : ℚ := min (max x lo) hi

/-- `torch.argmin` along the class dimension: the first index attaining the
minimum among 0, ..., m-1 (0 for the degenerate empty case). -/
def argminIdx (f : ℕ → ℚ) : ℕ → ℕ
  | 0 => 0
  | 1 => 0
  | k + 2 => if f (k + 1) < f (argminIdx f (k + 1)) then k + 1 else argminIdx f (k + 1)

/-- `torch.argmax` along the class dimension: the first index attaining the
maximum among 0, ..., m-1. -/
def argmaxIdx (f : ℕ → ℚ) : ℕ → ℕ
  | 0 => 0
  | 1 => 0
  | k + 2 => if f (argmaxIdx f (k + 1)) < f (k + 1) then k + 1 else argmaxIdx f (k + 1)

/-- The classifier/loss pair consumed by the attack and the explainer, as the
opaque differentiable black box the design document describes.  `predict`
maps (current training-mode flag, input tensor) to class scores of shape
(N, nc); `gradLoss mode targets x` is the gradient, supplied by the autodiff
environment, of `loss_fn(predict mode x, targets)` with respect to `x`. -/
structure DiffModel where
  nc : ℕ
  predict : Bool → Arr4 → ℕ → ℕ → ℚ
  gradLoss : Bool → (ℕ → ℕ) → Arr4 → Arr4

/-- A tensor variable together with its autograd bookkeeping (the
`requires_grad` flag and the accumulated `.grad` field), which Python code
can mutate in place. -/
structure TensorVar where
  t : Tensor4
  requiresGrad : Bool
  grad : Option Arr4

/-- The PGD loop body iterated `k` times (lines 645-651 of the source), on a
leaf (detached) working tensor - the only domain on which the loop runs to
completion: on the first iteration the working tensor is a leaf exactly when
the cloned input was not tracking gradients (`perturb` models the non-leaf
crash of line 646 separately, before this loop is consulted), and every
later iteration starts from the detached result of line 651, a leaf, so
line 646 succeeds there.  Each iteration marks the working tensor as
requiring gradient, queries the model at the current training-mode flag
(the source never reads or writes `model.training`, so the flag threads
through unchanged and every query sees it as-is; the returned list records
the flag at each query), computes the loss against the per-sample `argmin`
of the scores, backpropagates, subtracts `step_size * sign(gradient)` and
detaches.  Returns (final working tensor, final mode flag, mode flags
observed at the queries). -/
def pgdLoopSt (M : DiffModel) (stepSize : ℚ) : ℕ → Bool → Arr4 → Arr4 × Bool × List Bool
  | 0, mode, x => (x, mode, [])
  | k + 1, mode, x =>
    let pred := M.predict mode x
    let tgt := fun n => argminIdx (fun j => pred n j) M.nc
    let gr := M.gradLoss mode tgt x
    let r := pgdLoopSt M stepSize k mode
      (fun n c h w => x n c h w - stepSize * qsign (gr n c h w))
    (r.1, r.2.1, mode :: r.2.2)

/-- The attack configuration (`PGDAttack.__init__`); the loss function is
part of the `DiffModel` oracle. -/
structure PGDAttack where
  num_steps : ℕ
  step_size : ℚ
  epsilon : ℚ

/-- `PGDAttack.perturb` (lines 626-654 of the source).  `output` starts as a
clone of the input values (line 641).  When the caller's input is itself
tracking gradients, that clone is a non-leaf tensor, and the first loop
iteration's `output.requires_grad = True` (line 646) raises a RuntimeError
(only leaf flags may be changed) before any model query, so a call with a
gradient-tracking input and at least one step fails with no result,
modelled by `none`.  Otherwise the working tensor is a leaf throughout
(line 651 detaches it each iteration) and the call completes:
`input.requires_grad = False` (line 642) leaves the caller's variable with
a cleared flag (its values and `.grad` field untouched), and after the loop
the displacement from the input is clamped elementwise to
[-epsilon, epsilon] and added back.  Returns (adversarial sample values,
caller's input variable after the call, model mode flag after the call,
mode flags seen by the model queries). -/
def PGDAttack.perturb (A : PGDAttack) (M : DiffModel) (mode : Bool)
    (input : TensorVar) : Option (Arr4 × TensorVar × Bool × List Bool) :=
  if input.requiresGrad ∧ 0 < A.num_steps then none
  else
    let r := pgdLoopSt M A.step_size A.num_steps mode input.t.data
    some (fun n c h w =>
        input.t.data n c h w +
          clampQ (r.1 n c h w - input.t.data n c h w) (-A.epsilon) A.epsilon,
      { t := input.t, requiresGrad := false, grad := input.grad },
      r.2.1, r.2.2)

/-- One update of the iterative gradient-sign attack as the design document
states it (section 4.4):
`output ← output − step_size · sign(gradient of the least-confident-class
loss at output)`. -/
def pgdStepFn (M : DiffModel) (mode : Bool) (stepSize : ℚ) (x : Arr4) : Arr4 :=
  fun n c h w =>
    x n c h w - stepSize * qsign
      (M.gradLoss mode
        (fun nn => argminIdx (fun j => M.predict mode x nn j) M.nc) x n c h w)

/-- The attack as the design document states it: iterate the update
`num_steps` times from the input, then clip the total displacement to
[-epsilon, epsilon] and add it back to the input. -/
def perturbSpec (M : DiffModel) (mode : Bool) (steps : ℕ) (stepSize eps : ℚ)
    (x0 : Arr4) : Arr4 := fun n c h w =>
  x0 n c h w + clampQ ((pgdStepFn M mode stepSize)^[steps] x0 n c h w - x0 n c h w) (-eps) eps

/-- Fold computing `torch.max(f 0, ..., f (k-1)).abs`-style channel maximum:
the maximum of `|f c|` over `c < k` (0 for the degenerate `k = 0`, which is
outside torch's domain - `torch.max` needs a non-empty dimension; for `k ≥ 1`
the 0 base is absorbed because every `|f c|` is non-negative). -/
def qmaxAbs (f : ℕ → ℚ) : ℕ → ℚ
  | 0 => 0
  | k + 1 => max (qmaxAbs f k) |f k|

/-- `GradAttention.explain` (lines 669-697 of the source).  The caller's
input variable gets `requires_grad = True`; any stale gradient is zeroed and
the single backward pass then leaves `.grad` holding exactly the fresh
gradient (zero + accumulation, or a fresh write when it was absent).  The
loss is taken against the per-sample `argmax` of the model's own scores, and
the returned saliency map is the channelwise maximum of the absolute input
gradient, viewed as (N, 1, H, W).  Returns (saliency map, caller's input
variable after the call). -/
def GradAttention.explain (M : DiffModel) (mode : Bool) (input : TensorVar) :
    Tensor4 × TensorVar :=
  let gr := M.gradLoss mode
    (fun n => argmaxIdx (fun j => M.predict mode input.t.data n j) M.nc)
    input.t.data
  ({ s0 := input.t.s0, s1 := 1, s2 := input.t.s2, s3 := input.t.s3,
     data := fun n _ h w => qmaxAbs (fun c => gr n c h w) input.t.s1 },
   { t := input.t, requiresGrad := true, grad := some gr })

/-- Input of the end-to-end scenario: shape (2, 3, 8, 8). -/
def exInput : Tensor4 := { s0 := 2, s1 := 3, s2 := 8, s3 := 8, data := fun _ _ _ _ => 0 }

/-- Weight of the end-to-end scenario: shape (4, 3, 3, 3). -/
def exWeight : Tensor4 := { s0 := 4, s1 := 3, s2 := 3, s3 := 3, data := fun _ _ _ _ => 0 }

/-- Bias of the end-to-end scenario: shape (4). -/
def exBias : Tensor1 := { s0 := 4, data := fun _ => 0 }

/-- Upstream gradient of all ones, shape (2, 4, 8, 8). -/
def exGradOut : Tensor4 := { s0 := 2, s1 := 4, s2 := 8, s3 := 8, data := fun _ _ _ _ => 1 }

/-- A tiny 1x1x2x2 input tensor. -/
def tinyInput : Tensor4 :=
  { s0 := 1, s1 := 1, s2 := 2, s3 := 2, data := fun _ _ h w => ((h * 2 + w : ℕ) : ℚ) }

/-- A tiny 1x1x1x1 weight tensor. -/
def tinyWeight : Tensor4 := { s0 := 1, s1 := 1, s2 := 1, s3 := 1, data := fun _ _ _ _ => 1 }

/-- A tiny length-1 bias tensor. -/
def tinyBias : Tensor1 := { s0 := 1, data := fun _ => 0 }

/-- A saved context whose bias is absent, as read by the backward guard of
line 119 of the source. -/
def tinyCtxNoBias : ConvCtx :=
  { windows := fun _ _ _ => 0, weight := tinyWeight, bias := none,
    stride := 1, padding := 0, batch := 1, inH := 1, inW := 1 }

/-- A one-class constant model with zero gradients, for concrete runs of the
attack and the explainer. -/
def tinyModel : DiffModel :=
  { nc := 1, predict := fun _ _ _ _ => 0, gradLoss := fun _ _ _ => fun _ _ _ _ => 0 }

/-- A 1x1x1x1 tensor variable that is tracking gradients before the call. -/
def tinyVar : TensorVar :=
  { t := { s0 := 1, s1 := 1, s2 := 1, s3 := 1, data := fun _ _ _ _ => 0 },
    requiresGrad := true, grad := none }

/-- A 1x1x1x1 tensor variable that is not tracking gradients - the state of
the attack's inputs at the repository's call sites, and the domain on which
the attack loop runs to completion. -/
def plainVar : TensorVar :=
  { t := { s0 := 1, s1 := 1, s2 := 1, s3 := 1, data := fun _ _ _ _ => 0 },
    requiresGrad := false, grad := none }

/-- A one-step attack configuration. -/
def tinyAttack : PGDAttack := { num_steps := 1, step_size := 1, epsilon := 1 }

/-- A zero-step attack configuration. -/
def zeroStepAttack : PGDAttack := { num_steps := 0, step_size := 1, epsilon := 1 }

/-- The conclusion of claim C1, at given input, weight, bias, upstream
gradient, stride and padding: forward succeeds, backward (with every
gradient requested) succeeds, and each returned gradient entry equals the
true analytic gradient of the scalar functional `convLoss` - the exact
finite difference of `convLoss` under a one-hot perturbation of the
corresponding argument, which is the derivative because the forward pass is
affine in each argument; finally, a grad_output of all ones over shape
(2, *, 8, 8) makes every grad_bias entry 2*8*8 = 128. -/
def C1Conclusion (x w : Tensor4) (b : Tensor1) (gOut : Tensor4) (s p : ℕ) : Prop :=
  ∃ out ctx gi gw2 gb,
    CustomConv2DFunction.forward x w (some b) (s : ℤ) (p : ℤ) = some (out, ctx)
    ∧ CustomConv2DFunction.backward ctx gOut true true true
        = (some gi, some gw2, some gb)
    ∧ (∀ m i y z, m < x.s0 → i < w.s1 → y < x.s2 → z < x.s3 →
        gi.data m i y z
          = convLoss gOut.data (addArr4 x.data (oneHot4 m i y z)) w.data b.data
              x.s0 w.s1 x.s2 x.s3 w.s0 w.s2 s p
            - convLoss gOut.data x.data w.data b.data
                x.s0 w.s1 x.s2 x.s3 w.s0 w.s2 s p)
    ∧ (∀ o i a bb, o < w.s0 → i < w.s1 → a < w.s2 → bb < w.s2 →
        gw2.data o i a bb
          = convLoss gOut.data x.data (addArr4 w.data (oneHot4 o i a bb)) b.data
              x.s0 w.s1 x.s2 x.s3 w.s0 w.s2 s p
            - convLoss gOut.data x.data w.data b.data
                x.s0 w.s1 x.s2 x.s3 w.s0 w.s2 s p)
    ∧ (∀ o, o < w.s0 →
        gb.data o
          = convLoss gOut.data x.data w.data (fun j => b.data j + oneHot1 o j)
              x.s0 w.s1 x.s2 x.s3 w.s0 w.s2 s p
            - convLoss gOut.data x.data w.data b.data
                x.s0 w.s1 x.s2 x.s3 w.s0 w.s2 s p)
    ∧ (gOut.s0 = 2 → gOut.s2 = 8 → gOut.s3 = 8 →
        (∀ n o2 u v, gOut.data n o2 u v = 1) → ∀ o, gb.data o = 128)

/-- The conclusion of claim C2: forward succeeds, the output has shape
(N, C_o, floor((H+2p-K)/s)+1, floor((W+2p-K)/s)+1), every entry is the
contraction of the corresponding patch with the flattened weight plus the
bias, and (for in-range spatial positions) the flat contraction agrees with
the row-major triple-sum over the padded input, showing patch order and
weight flattening order match. -/
def C2Conclusion (x w : Tensor4) (b : Tensor1) (s p : ℕ) : Prop :=
  ∃ out ctx,
    CustomConv2DFunction.forward x w (some b) (s : ℤ) (p : ℤ) = some (out, ctx)
    ∧ out.s0 = x.s0 ∧ out.s1 = w.s0
    ∧ out.s2 = (x.s2 + 2 * p - w.s2) / s + 1
    ∧ out.s3 = (x.s3 + 2 * p - w.s2) / s + 1
    ∧ (∀ n o u v, out.data n o u v
        = (∑ c ∈ Finset.range (w.s1 * (w.s2 * w.s2)),
            unfoldT x.data x.s2 x.s3 w.s2 s p n c (u * hOut x.s3 w.s2 s p + v)
              * wflat w.data w.s2 o c) + b.data o)
    ∧ (∀ n o u v, u < hOut x.s2 w.s2 s p → v < hOut x.s3 w.s2 s p →
        out.data n o u v
          = (∑ i ∈ Finset.range w.s1, ∑ a ∈ Finset.range w.s2,
              ∑ bb ∈ Finset.range w.s2,
                padded x.data x.s2 x.s3 p n i (u * s + a) (v * s + bb)
                  * w.data o i a bb)
            + b.data o)

theorem sum_ite_push (s : Finset ℕ) (P : Prop) [Decidable P] (f : ℕ → ℚ) :
    (∑ v ∈ s, if P then f v else 0) = if P then ∑ v ∈ s, f v else 0 := by
  split <;> simp

theorem sum_div_mod_range (m n : ℕ) (f : ℕ → ℕ → ℚ) :
    ∑ l ∈ Finset.range (m * n), f (l / n) (l % n)
      = ∑ u ∈ Finset.range m, ∑ v ∈ Finset.range n, f u v := by
  induction m with
  | zero => simp
  | succ k ih =>
    rw [Nat.succ_mul, Finset.sum_range_add, ih, Finset.sum_range_succ]
    congr 1
    refine Finset.sum_congr rfl fun j hj => ?_
    have hj' := Finset.mem_range.mp hj
    have hn : 0 < n := by omega
    have h1 : (k * n + j) / n = k := by
      rw [mul_comm, Nat.mul_add_div hn, Nat.div_eq_of_lt hj']
      omega
    have h2 : (k * n + j) % n = j := by
      rw [mul_comm, Nat.mul_add_mod]
      exact Nat.mod_eq_of_lt hj'
    rw [h1, h2]

theorem sum_range_mul3 (Ci K : ℕ) (f : ℕ → ℕ → ℕ → ℚ) :
    ∑ c ∈ Finset.range (Ci * (K * K)), f (c / (K * K)) ((c % (K * K)) / K) (c % K)
      = ∑ i ∈ Finset.range Ci, ∑ a ∈ Finset.range K, ∑ b ∈ Finset.range K, f i a b := by
  have h1 : ∀ c : ℕ, c % K = c % (K * K) % K := fun c =>
    (Nat.mod_mod_of_dvd c (dvd_mul_left K K)).symm
  calc ∑ c ∈ Finset.range (Ci * (K * K)), f (c / (K * K)) ((c % (K * K)) / K) (c % K)
      = ∑ c ∈ Finset.range (Ci * (K * K)),
          (fun q r => f q (r / K) (r % K)) (c / (K * K)) (c % (K * K)) := by
        refine Finset.sum_congr rfl fun c _ => ?_
        simp only
        rw [h1 c]
    _ = ∑ i ∈ Finset.range Ci, ∑ r ∈ Finset.range (K * K), f i (r / K) (r % K) :=
        sum_div_mod_range Ci (K * K) (fun q r => f q (r / K) (r % K))
    _ = ∑ i ∈ Finset.range Ci, ∑ a ∈ Finset.range K, ∑ b ∈ Finset.range K, f i a b := by
        refine Finset.sum_congr rfl fun i _ => ?_
        exact sum_div_mod_range K K (f i)

theorem kk_decode (K i a b : ℕ) (ha : a < K) (hb : b < K) :
    (i * (K * K) + a * K + b) / (K * K) = i ∧
    ((i * (K * K) + a * K + b) % (K * K)) / K = a ∧
    (i * (K * K) + a * K + b) % K = b := by
  have hK : 0 < K := by omega
  have hab : a * K + b < K * K := by
    calc a * K + b < a * K + K := by omega
      _ = (a + 1) * K := by ring
      _ ≤ K * K := Nat.mul_le_mul_right K ha
  have e1 : i * (K * K) + a * K + b = (a * K + b) + (K * K) * i := by ring
  refine ⟨?_, ?_, ?_⟩
  · rw [e1, Nat.add_mul_div_left _ _ (Nat.mul_pos hK hK), Nat.div_eq_of_lt hab]
    omega
  · rw [e1, Nat.add_mul_mod_self_left, Nat.mod_eq_of_lt hab,
      show a * K + b = b + K * a from by ring, Nat.add_mul_div_left _ _ hK,
      Nat.div_eq_of_lt hb]
    omega
  · rw [show i * (K * K) + a * K + b = b + K * (i * K + a) from by ring,
      Nat.add_mul_mod_self_left, Nat.mod_eq_of_lt hb]

theorem kk_encode (K i a b c : ℕ) (h1 : c / (K * K) = i)
    (h2 : (c % (K * K)) / K = a) (h3 : c % K = b) :
    c = i * (K * K) + a * K + b := by
  have e1 := Nat.div_add_mod c (K * K)
  have e2 := Nat.div_add_mod (c % (K * K)) K
  have e3 : c % (K * K) % K = c % K := Nat.mod_mod_of_dvd c (dvd_mul_left K K)
  rw [h1] at e1
  rw [h2, e3, h3] at e2
  rw [← e2] at e1
  rw [← e1]
  ring

theorem kk_encode_lt (Ci K i a b : ℕ) (hi : i < Ci) (ha : a < K) (hb : b < K) :
    i * (K * K) + a * K + b < Ci * (K * K) := by
  have hab : a * K + b < K * K := by
    calc a * K + b < a * K + K := by omega
      _ = (a + 1) * K := by ring
      _ ≤ K * K := Nat.mul_le_mul_right K ha
  calc i * (K * K) + a * K + b = i * (K * K) + (a * K + b) := by ring
    _ < i * (K * K) + K * K := Nat.add_lt_add_left hab _
    _ = (i + 1) * (K * K) := by ring
    _ ≤ Ci * (K * K) := Nat.mul_le_mul_right _ hi

theorem uv_encode (Wo u v : ℕ) (hv : v < Wo) :
    (u * Wo + v) / Wo = u ∧ (u * Wo + v) % Wo = v := by
  have hWo : 0 < Wo := by omega
  constructor
  · rw [mul_comm, Nat.mul_add_div hWo, Nat.div_eq_of_lt hv]
    omega
  · rw [mul_comm, Nat.mul_add_mod]
    exact Nat.mod_eq_of_lt hv

theorem sum_comm_five (s1 s2 s3 s4 s5 : Finset ℕ) (f : ℕ → ℕ → ℕ → ℕ → ℕ → ℚ) :
    ∑ o ∈ s5, ∑ u ∈ s1, ∑ v ∈ s2, ∑ a ∈ s3, ∑ b ∈ s4, f o u v a b
      = ∑ u ∈ s1, ∑ v ∈ s2, ∑ a ∈ s3, ∑ b ∈ s4, ∑ o ∈ s5, f o u v a b := by
  rw [Finset.sum_comm]
  refine Finset.sum_congr rfl fun u _ => ?_
  rw [Finset.sum_comm]
  refine Finset.sum_congr rfl fun v _ => ?_
  rw [Finset.sum_comm]
  refine Finset.sum_congr rfl fun a _ => ?_
  rw [Finset.sum_comm]

theorem qadd_cancel (S T c : ℚ) : S + T + c - (S + c) = T := by ring

theorem convLoss_sub (g x1 w1 x2 w2 : Arr4) (b1 b2 : Arr1) (N Ci H W Co K s p : ℕ) :
    convLoss g x1 w1 b1 N Ci H W Co K s p - convLoss g x2 w2 b2 N Ci H W Co K s p
      = ∑ n ∈ Finset.range N, ∑ o2 ∈ Finset.range Co,
          ∑ u ∈ Finset.range (hOut H K s p), ∑ v ∈ Finset.range (hOut W K s p),
            g n o2 u v * (convData x1 w1 b1 Ci H W K s p n o2 u v
              - convData x2 w2 b2 Ci H W K s p n o2 u v) := by
  simp only [convLoss, ← Finset.sum_sub_distrib, ← mul_sub]

theorem convData_bias_diff (x w : Arr4) (b : Arr1) (o Ci H W K s p : ℕ) (n o2 u v : ℕ) :
    convData x w (fun j => b j + oneHot1 o j) Ci H W K s p n o2 u v
      - convData x w b Ci H W K s p n o2 u v = if o2 = o then 1 else 0 := by
  simp only [convData, oneHot1]
  ring

theorem unfoldT_addArr4 (f g : Arr4) (H W K s p : ℕ) (n c l : ℕ) :
    unfoldT (addArr4 f g) H W K s p n c l
      = unfoldT f H W K s p n c l + unfoldT g H W K s p n c l := by
  simp only [unfoldT, padded, addArr4]
  split <;> simp

theorem unfoldT_oneHot (m i y z H W K s p : ℕ) (hy : y < H) (hz : z < W) (n c l : ℕ) :
    unfoldT (oneHot4 m i y z) H W K s p n c l =
      if n = m ∧ c / (K * K) = i
          ∧ (l / hOut W K s p) * s + (c % (K * K)) / K = y + p
          ∧ (l % hOut W K s p) * s + c % K = z + p then 1 else 0 := by
  simp only [unfoldT, padded, oneHot4]
  set A := (l / hOut W K s p) * s + (c % (K * K)) / K with hA
  set B := (l % hOut W K s p) * s + c % K with hB
  set I := c / (K * K) with hI
  split_ifs <;> first | rfl | omega

theorem convData_weight_diff (x w : Arr4) (b : Arr1) (o i a bb Ci H W K s p : ℕ)
    (hi : i < Ci) (ha : a < K) (hb : bb < K) (n o2 u v : ℕ) :
    convData x (addArr4 w (oneHot4 o i a bb)) b Ci H W K s p n o2 u v
      - convData x w b Ci H W K s p n o2 u v
      = if o2 = o then
          unfoldT x H W K s p n (i * (K * K) + a * K + bb) (u * hOut W K s p + v)
        else 0 := by
  have hwf : ∀ c : ℕ, wflat (addArr4 w (oneHot4 o i a bb)) K o2 c
      = wflat w K o2 c +
        (if o2 = o ∧ c / (K * K) = i ∧ (c % (K * K)) / K = a ∧ c % K = bb
          then 1 else 0) := by
    intro c
    simp only [wflat, addArr4, oneHot4]
  simp only [convData, hwf, mul_add, Finset.sum_add_distrib]
  rw [qadd_cancel]
  have hcol : ∑ c ∈ Finset.range (Ci * (K * K)),
      unfoldT x H W K s p n c (u * hOut W K s p + v) *
        (if c / (K * K) = i ∧ (c % (K * K)) / K = a ∧ c % K = bb then 1 else 0)
      = unfoldT x H W K s p n (i * (K * K) + a * K + bb) (u * hOut W K s p + v) := by
    rw [Finset.sum_eq_single_of_mem (i * (K * K) + a * K + bb)
        (Finset.mem_range.mpr (kk_encode_lt Ci K i a bb hi ha hb))
        (fun c _ hne => by
          rw [if_neg, mul_zero]
          intro hR
          exact hne (kk_encode K i a bb c hR.1 hR.2.1 hR.2.2))]
    obtain ⟨d1, d2, d3⟩ := kk_decode K i a bb ha hb
    rw [if_pos ⟨d1, d2, d3⟩, mul_one]
  by_cases ho2 : o2 = o
  · subst ho2
    simp only [eq_self_iff_true, true_and, if_true]
    exact hcol
  · simp [ho2]

theorem convData_input_diff (x w : Arr4) (b : Arr1) (m i y z Ci H W K s p : ℕ)
    (hi : i < Ci) (hy : y < H) (hz : z < W) (n o2 u v : ℕ) (hv : v < hOut W K s p) :
    convData (addArr4 x (oneHot4 m i y z)) w b Ci H W K s p n o2 u v
      - convData x w b Ci H W K s p n o2 u v
      = if n = m then
          ∑ a ∈ Finset.range K, ∑ bb ∈ Finset.range K,
            (if u * s + a = y + p ∧ v * s + bb = z + p then w o2 i a bb else 0)
        else 0 := by
  obtain ⟨hdiv, hmod⟩ := uv_encode (hOut W K s p) u v hv
  simp only [convData, unfoldT_addArr4, add_mul, Finset.sum_add_distrib]
  rw [qadd_cancel]
  simp only [unfoldT_oneHot m i y z H W K s p hy hz, hdiv, hmod]
  simp only [ite_mul, one_mul, zero_mul]
  by_cases hn : n = m
  · subst hn
    simp only [eq_self_iff_true, true_and, if_true]
    simp only [wflat]
    calc ∑ c ∈ Finset.range (Ci * (K * K)),
        (if c / (K * K) = i ∧ u * s + (c % (K * K)) / K = y + p
            ∧ v * s + c % K = z + p
          then w o2 (c / (K * K)) ((c % (K * K)) / K) (c % K) else 0)
        = ∑ i2 ∈ Finset.range Ci, ∑ a ∈ Finset.range K, ∑ bb ∈ Finset.range K,
            (if i2 = i ∧ u * s + a = y + p ∧ v * s + bb = z + p
              then w o2 i2 a bb else 0) :=
          sum_range_mul3 Ci K (fun q r t =>
            if q = i ∧ u * s + r = y + p ∧ v * s + t = z + p then w o2 q r t else 0)
      _ = ∑ a ∈ Finset.range K, ∑ bb ∈ Finset.range K,
            (if u * s + a = y + p ∧ v * s + bb = z + p then w o2 i a bb else 0) := by
          have hsplit : ∀ i2 aa bb2 : ℕ,
              (if i2 = i ∧ u * s + aa = y + p ∧ v * s + bb2 = z + p
                then w o2 i2 aa bb2 else 0)
              = if i2 = i then
                  (if u * s + aa = y + p ∧ v * s + bb2 = z + p
                    then w o2 i2 aa bb2 else 0)
                else 0 := by
            intro i2 aa bb2
            rw [ite_and]
          simp only [hsplit, sum_ite_push, Finset.sum_ite_eq' (Finset.range Ci) i]
          simp [Finset.mem_range.mpr hi]
  · simp [hn]

theorem foldT_gradWindows_eval (g w : Arr4) (Co K s p Ho Wo m i y z : ℕ) :
    foldT (gradWindows g w Co K Wo) K s p Ho Wo m i y z
      = ∑ u ∈ Finset.range Ho, ∑ v ∈ Finset.range Wo, ∑ a ∈ Finset.range K,
          ∑ bb ∈ Finset.range K,
            (if u * s + a = y + p ∧ v * s + bb = z + p then
              ∑ o2 ∈ Finset.range Co, g m o2 u v * w o2 i a bb else 0) := by
  unfold foldT gradWindows
  have hdec : ∀ l : ℕ, (∑ a ∈ Finset.range K, ∑ bb ∈ Finset.range K,
      (if (l / Wo) * s + a = y + p ∧ (l % Wo) * s + bb = z + p then
        ∑ o2 ∈ Finset.range Co, g m o2 (l / Wo) (l % Wo) *
          w o2 ((i * (K * K) + a * K + bb) / (K * K))
            (((i * (K * K) + a * K + bb) % (K * K)) / K)
            ((i * (K * K) + a * K + bb) % K) else 0))
      = ∑ a ∈ Finset.range K, ∑ bb ∈ Finset.range K,
          (if (l / Wo) * s + a = y + p ∧ (l % Wo) * s + bb = z + p then
            ∑ o2 ∈ Finset.range Co, g m o2 (l / Wo) (l % Wo) * w o2 i a bb else 0) := by
    intro l
    refine Finset.sum_congr rfl fun a ha => ?_
    refine Finset.sum_congr rfl fun bb hbb => ?_
    obtain ⟨d1, d2, d3⟩ := kk_decode K i a bb (Finset.mem_range.mp ha)
      (Finset.mem_range.mp hbb)
    rw [d1, d2, d3]
  simp only [hdec]
  exact sum_div_mod_range Ho Wo (fun u v =>
    ∑ a ∈ Finset.range K, ∑ bb ∈ Finset.range K,
      (if u * s + a = y + p ∧ v * s + bb = z + p then
        ∑ o2 ∈ Finset.range Co, g m o2 u v * w o2 i a bb else 0))

theorem grad_bias_analytic (g x w : Arr4) (b : Arr1) (N Ci H W Co K s p o : ℕ)
    (ho : o < Co) :
    convLoss g x w (fun j => b j + oneHot1 o j) N Ci H W Co K s p
      - convLoss g x w b N Ci H W Co K s p
      = ∑ n ∈ Finset.range N, ∑ u ∈ Finset.range (hOut H K s p),
          ∑ v ∈ Finset.range (hOut W K s p), g n o u v := by
  rw [convLoss_sub]
  simp only [convData_bias_diff, mul_ite, mul_one, mul_zero, sum_ite_push,
    Finset.sum_ite_eq']
  simp [Finset.mem_range.mpr ho]

theorem grad_weight_analytic (g x w : Arr4) (b : Arr1) (N Ci H W Co K s p o i a bb : ℕ)
    (ho : o < Co) (hi : i < Ci) (ha : a < K) (hb : bb < K) :
    convLoss g x (addArr4 w (oneHot4 o i a bb)) b N Ci H W Co K s p
      - convLoss g x w b N Ci H W Co K s p
      = ∑ n ∈ Finset.range N, ∑ u ∈ Finset.range (hOut H K s p),
          ∑ v ∈ Finset.range (hOut W K s p),
            g n o u v * unfoldT x H W K s p n (i * (K * K) + a * K + bb)
              (u * hOut W K s p + v) := by
  rw [convLoss_sub]
  simp only [convData_weight_diff x w b o i a bb Ci H W K s p hi ha hb]
  simp only [mul_ite, mul_zero, sum_ite_push, Finset.sum_ite_eq']
  simp [Finset.mem_range.mpr ho]

theorem grad_input_analytic (g x w : Arr4) (b : Arr1) (N Ci H W Co K s p m i y z : ℕ)
    (hm : m < N) (hi : i < Ci) (hy : y < H) (hz : z < W) :
    convLoss g (addArr4 x (oneHot4 m i y z)) w b N Ci H W Co K s p
      - convLoss g x w b N Ci H W Co K s p
      = foldT (gradWindows g w Co K (hOut W K s p)) K s p (hOut H K s p)
          (hOut W K s p) m i y z := by
  rw [convLoss_sub]
  have stepA : ∑ n ∈ Finset.range N, ∑ o2 ∈ Finset.range Co,
      ∑ u ∈ Finset.range (hOut H K s p), ∑ v ∈ Finset.range (hOut W K s p),
        g n o2 u v * (convData (addArr4 x (oneHot4 m i y z)) w b Ci H W K s p n o2 u v
          - convData x w b Ci H W K s p n o2 u v)
      = ∑ n ∈ Finset.range N, ∑ o2 ∈ Finset.range Co,
          ∑ u ∈ Finset.range (hOut H K s p), ∑ v ∈ Finset.range (hOut W K s p),
            (if n = m then
              ∑ a ∈ Finset.range K, ∑ bb ∈ Finset.range K,
                (if u * s + a = y + p ∧ v * s + bb = z + p then
                  g n o2 u v * w o2 i a bb else 0)
            else 0) := by
    refine Finset.sum_congr rfl fun n _ => ?_
    refine Finset.sum_congr rfl fun o2 _ => ?_
    refine Finset.sum_congr rfl fun u _ => ?_
    refine Finset.sum_congr rfl fun v hv => ?_
    rw [convData_input_diff x w b m i y z Ci H W K s p hi hy hz n o2 u v
      (Finset.mem_range.mp hv)]
    simp only [mul_ite, mul_zero, Finset.mul_sum]
  rw [stepA]
  simp only [sum_ite_push, Finset.sum_ite_eq']
  rw [if_pos (Finset.mem_range.mpr hm)]
  rw [foldT_gradWindows_eval]
  calc ∑ o2 ∈ Finset.range Co, ∑ u ∈ Finset.range (hOut H K s p),
      ∑ v ∈ Finset.range (hOut W K s p), ∑ a ∈ Finset.range K,
        ∑ bb ∈ Finset.range K,
          (if u * s + a = y + p ∧ v * s + bb = z + p then
            g m o2 u v * w o2 i a bb else 0)
      = ∑ u ∈ Finset.range (hOut H K s p), ∑ v ∈ Finset.range (hOut W K s p),
          ∑ a ∈ Finset.range K, ∑ bb ∈ Finset.range K, ∑ o2 ∈ Finset.range Co,
            (if u * s + a = y + p ∧ v * s + bb = z + p then
              g m o2 u v * w o2 i a bb else 0) :=
        sum_comm_five (Finset.range (hOut H K s p)) (Finset.range (hOut W K s p))
          (Finset.range K) (Finset.range K) (Finset.range Co)
          (fun o2 u v a bb =>
            if u * s + a = y + p ∧ v * s + bb = z + p then
              g m o2 u v * w o2 i a bb else 0)
    _ = ∑ u ∈ Finset.range (hOut H K s p), ∑ v ∈ Finset.range (hOut W K s p),
          ∑ a ∈ Finset.range K, ∑ bb ∈ Finset.range K,
            (if u * s + a = y + p ∧ v * s + bb = z + p then
              ∑ o2 ∈ Finset.range Co, g m o2 u v * w o2 i a bb else 0) := by
        refine Finset.sum_congr rfl fun u _ => ?_
        refine Finset.sum_congr rfl fun v _ => ?_
        refine Finset.sum_congr rfl fun a _ => ?_
        refine Finset.sum_congr rfl fun bb _ => ?_
        exact sum_ite_push (Finset.range Co) _ _

/-- Claim C1: for every valid forward invocation (the preconditions of
forward hold and the upstream gradient has the forward output's shape), the
backward pass computes the true analytic gradients of the forward
computation - grad_input by the adjoint contraction with the weight
scatter-added back to input shape, grad_weight by contracting with the saved
windows, grad_bias by summing grad_output over batch and spatial axes - each
proven equal to the exact derivative of the scalar functional `convLoss`;
in particular a grad_output of all ones over (2, *, 8, 8) yields grad_bias
128 in every channel. -/
theorem conv_backward_true_gradients (x w : Tensor4) (b : Tensor1) (gOut : Tensor4)
    (s p : ℕ) (hs : 0 < s) (hsq : w.s2 = w.s3) (hch : x.s1 = w.s1)
    (hH : w.s2 ≤ x.s2 + 2 * p) (hW : w.s2 ≤ x.s3 + 2 * p)
    (hg0 : gOut.s0 = x.s0) (hg1 : gOut.s1 = w.s0)
    (hg2 : gOut.s2 = hOut x.s2 w.s2 s p) (hg3 : gOut.s3 = hOut x.s3 w.s2 s p) :
    C1Conclusion x w b gOut s p := by
  have hcond : w.s2 = w.s3 ∧ x.s1 = w.s1 ∧ 0 < (s : ℤ) ∧ 0 ≤ (p : ℤ)
      ∧ (w.s2 : ℤ) ≤ (x.s2 : ℤ) + 2 * (p : ℤ)
      ∧ (w.s2 : ℤ) ≤ (x.s3 : ℤ) + 2 * (p : ℤ) :=
    ⟨hsq, hch, by exact_mod_cast hs, Int.natCast_nonneg p,
      by exact_mod_cast hH, by exact_mod_cast hW⟩
  have hf : CustomConv2DFunction.forward x w (some b) (s : ℤ) (p : ℤ)
      = some ({ s0 := x.s0, s1 := w.s0, s2 := hOut x.s2 w.s2 s p,
                s3 := hOut x.s3 w.s2 s p,
                data := convData x.data w.data b.data w.s1 x.s2 x.s3 w.s2 s p },
              { windows := unfoldT x.data x.s2 x.s3 w.s2 s p, weight := w,
                bias := some b, stride := s, padding := p,
                batch := x.s0, inH := x.s2, inW := x.s3 }) := by
    unfold CustomConv2DFunction.forward
    rw [if_pos hcond]
    simp only [Int.toNat_natCast]
  refine ⟨_, _, _, _, _, hf, rfl, ?_, ?_, ?_, ?_⟩
  · intro m i y z hm hi hy hz
    show foldT (gradWindows gOut.data w.data gOut.s1 w.s2 gOut.s3)
      w.s2 s p gOut.s2 gOut.s3 m i y z = _
    rw [hg1, hg2, hg3]
    exact (grad_input_analytic gOut.data x.data w.data b.data
      x.s0 w.s1 x.s2 x.s3 w.s0 w.s2 s p m i y z hm hi hy hz).symm
  · intro o i a bb ho hi ha hb2
    show (∑ n ∈ Finset.range x.s0, ∑ u ∈ Finset.range gOut.s2,
        ∑ v ∈ Finset.range gOut.s3,
          gOut.data n o u v * unfoldT x.data x.s2 x.s3 w.s2 s p n
            (i * (w.s2 * w.s2) + a * w.s2 + bb) (u * gOut.s3 + v)) = _
    rw [hg2, hg3]
    exact (grad_weight_analytic gOut.data x.data w.data b.data
      x.s0 w.s1 x.s2 x.s3 w.s0 w.s2 s p o i a bb ho hi ha hb2).symm
  · intro o ho
    show (∑ n ∈ Finset.range gOut.s0, ∑ u ∈ Finset.range gOut.s2,
        ∑ v ∈ Finset.range gOut.s3, gOut.data n o u v) = _
    rw [hg0, hg2, hg3]
    exact (grad_bias_analytic gOut.data x.data w.data b.data
      x.s0 w.s1 x.s2 x.s3 w.s0 w.s2 s p o ho).symm
  · intro e0 e2 e3 hones o
    show (∑ n ∈ Finset.range gOut.s0, ∑ u ∈ Finset.range gOut.s2,
        ∑ v ∈ Finset.range gOut.s3, gOut.data n o u v) = 128
    rw [e0, e2, e3]
    simp only [hones, Finset.sum_const, Finset.card_range, smul_eq_mul]
    norm_num

/-- Witness for C1 at the end-to-end scenario shapes (2,3,8,8), (4,3,3,3),
(4), stride 1, padding 1. -/
theorem conv_backward_true_gradients_witness :
    (0 < 1 ∧ exWeight.s2 = exWeight.s3 ∧ exInput.s1 = exWeight.s1
      ∧ exWeight.s2 ≤ exInput.s2 + 2 * 1 ∧ exWeight.s2 ≤ exInput.s3 + 2 * 1
      ∧ exGradOut.s0 = exInput.s0 ∧ exGradOut.s1 = exWeight.s0
      ∧ exGradOut.s2 = hOut exInput.s2 exWeight.s2 1 1
      ∧ exGradOut.s3 = hOut exInput.s3 exWeight.s2 1 1)
    ∧ C1Conclusion exInput exWeight exBias exGradOut 1 1 :=
  ⟨by decide,
   conv_backward_true_gradients exInput exWeight exBias exGradOut 1 1
     (by decide) (by decide) (by decide) (by decide) (by decide)
     (by decide) (by decide) (by decide) (by decide)⟩

/-- Claim C2: for every input (N,C_i,H,W), weight (C_o,C_i,K,K), bias (C_o),
integer stride s > 0 and padding p ≥ 0 with K not exceeding the padded input
in either spatial dimension, forward returns a tensor of shape
(N, C_o, floor((H+2p-K)/s)+1, floor((W+2p-K)/s)+1) whose entries are the
patch/flattened-weight contraction plus bias, the patches being extracted in
row-major sliding-window order with matching flattening orders. -/
theorem conv_forward_shape_contract (x w : Tensor4) (b : Tensor1) (s p : ℕ)
    (hs : 0 < s) (hsq : w.s2 = w.s3) (hch : x.s1 = w.s1)
    (hH : w.s2 ≤ x.s2 + 2 * p) (hW : w.s2 ≤ x.s3 + 2 * p) :
    C2Conclusion x w b s p := by
  have hcond : w.s2 = w.s3 ∧ x.s1 = w.s1 ∧ 0 < (s : ℤ) ∧ 0 ≤ (p : ℤ)
      ∧ (w.s2 : ℤ) ≤ (x.s2 : ℤ) + 2 * (p : ℤ)
      ∧ (w.s2 : ℤ) ≤ (x.s3 : ℤ) + 2 * (p : ℤ) :=
    ⟨hsq, hch, by exact_mod_cast hs, Int.natCast_nonneg p,
      by exact_mod_cast hH, by exact_mod_cast hW⟩
  have hf : CustomConv2DFunction.forward x w (some b) (s : ℤ) (p : ℤ)
      = some ({ s0 := x.s0, s1 := w.s0, s2 := hOut x.s2 w.s2 s p,
                s3 := hOut x.s3 w.s2 s p,
                data := convData x.data w.data b.data w.s1 x.s2 x.s3 w.s2 s p },
              { windows := unfoldT x.data x.s2 x.s3 w.s2 s p, weight := w,
                bias := some b, stride := s, padding := p,
                batch := x.s0, inH := x.s2, inW := x.s3 }) := by
    unfold CustomConv2DFunction.forward
    rw [if_pos hcond]
    simp only [Int.toNat_natCast]
  refine ⟨_, _, hf, rfl, rfl, rfl, rfl, fun n o u v => rfl, ?_⟩
  intro n o u v hu hv
  obtain ⟨hdiv, hmod⟩ := uv_encode (hOut x.s3 w.s2 s p) u v hv
  show convData x.data w.data b.data w.s1 x.s2 x.s3 w.s2 s p n o u v = _
  unfold convData unfoldT wflat
  rw [hdiv, hmod]
  congr 1
  exact sum_range_mul3 w.s1 w.s2 (fun q r t =>
    padded x.data x.s2 x.s3 p n q (u * s + r) (v * s + t) * w.data o q r t)

/-- Witness for C2 at a tiny concrete invocation. -/
theorem conv_forward_shape_contract_witness :
    (0 < 1 ∧ tinyWeight.s2 = tinyWeight.s3 ∧ tinyInput.s1 = tinyWeight.s1
      ∧ tinyWeight.s2 ≤ tinyInput.s2 + 2 * 0 ∧ tinyWeight.s2 ≤ tinyInput.s3 + 2 * 0)
    ∧ C2Conclusion tinyInput tinyWeight tinyBias 1 0 :=
  ⟨by decide,
   conv_forward_shape_contract tinyInput tinyWeight tinyBias 1 0
     (by decide) (by decide) (by decide) (by decide) (by decide)⟩

/-- Claim C5: each precondition violation - non-square kernel, mismatched
channel count, non-positive stride, negative padding, or kernel exceeding
the padded input in either spatial dimension (checked independently) - makes
forward fail with no result at all; non-integer strides or paddings are
excluded by the integer typing of the embedding, which is what the
`isinstance(.., int)` asserts enforce. -/
theorem conv_forward_rejects_bad_params (x w : Tensor4) (b : Option Tensor1)
    (stride padding : ℤ)
    (h : w.s2 ≠ w.s3 ∨ x.s1 ≠ w.s1 ∨ stride ≤ 0 ∨ padding < 0
      ∨ (x.s2 : ℤ) + 2 * padding < w.s2 ∨ (x.s3 : ℤ) + 2 * padding < w.s2) :
    CustomConv2DFunction.forward x w b stride padding = none := by
  unfold CustomConv2DFunction.forward
  rw [if_neg]
  rintro ⟨h1, h2, h3, h4, h5, h6⟩
  rcases h with h | h | h | h | h | h <;> omega

/-- Witness for C5: a zero stride is rejected. -/
theorem conv_forward_rejects_bad_params_witness :
    (tinyWeight.s2 ≠ tinyWeight.s3 ∨ tinyInput.s1 ≠ tinyWeight.s1 ∨ (0 : ℤ) ≤ 0
      ∨ (0 : ℤ) < 0 ∨ (tinyInput.s2 : ℤ) + 2 * 0 < tinyWeight.s2
      ∨ (tinyInput.s3 : ℤ) + 2 * 0 < tinyWeight.s2)
    ∧ CustomConv2DFunction.forward tinyInput tinyWeight (some tinyBias) 0 0 = none :=
  ⟨Or.inr (Or.inr (Or.inl (by decide))),
   conv_forward_rejects_bad_params tinyInput tinyWeight (some tinyBias) 0 0
     (Or.inr (Or.inr (Or.inl (by decide))))⟩

/-- Claim C6 (code bug): the spec and the source's own docstring declare the
bias optional, and backward guards `if bias is not None`, but forward
dereferences `bias.view` unconditionally (line 69), so a call with an absent
bias crashes even though every checked precondition holds; by contrast the
backward guard does return the absent marker for grad_bias when no bias was
saved. -/
theorem conv_forward_crashes_without_bias :
    (tinyWeight.s2 = tinyWeight.s3 ∧ tinyInput.s1 = tinyWeight.s1
      ∧ (0 : ℤ) < 1 ∧ (0 : ℤ) ≤ 0
      ∧ (tinyWeight.s2 : ℤ) ≤ (tinyInput.s2 : ℤ) + 2 * 0
      ∧ (tinyWeight.s2 : ℤ) ≤ (tinyInput.s3 : ℤ) + 2 * 0)
    ∧ CustomConv2DFunction.forward tinyInput tinyWeight none 1 0 = none
    ∧ (CustomConv2DFunction.backward tinyCtxNoBias exGradOut true true true).2.2
        = none :=
  ⟨by decide, rfl, rfl⟩

theorem pgdLoopSt_fst (M : DiffModel) (st : ℚ) :
    ∀ (k : ℕ) (mode : Bool) (x : Arr4),
      (pgdLoopSt M st k mode x).1 = (pgdStepFn M mode st)^[k] x := by
  intro k
  induction k with
  | zero => intro mode x; rfl
  | succ k ih =>
    intro mode x
    rw [Function.iterate_succ_apply]
    show (pgdLoopSt M st k mode (pgdStepFn M mode st x)).1 = _
    exact ih mode (pgdStepFn M mode st x)

theorem pgdLoopSt_modes (M : DiffModel) (st : ℚ) :
    ∀ (k : ℕ) (mode : Bool) (x : Arr4),
      (pgdLoopSt M st k mode x).2.1 = mode
      ∧ (pgdLoopSt M st k mode x).2.2 = List.replicate k mode := by
  intro k
  induction k with
  | zero => intro mode x; exact ⟨rfl, rfl⟩
  | succ k ih =>
    intro mode x
    constructor
    · show (pgdLoopSt M st k mode (pgdStepFn M mode st x)).2.1 = mode
      exact (ih mode (pgdStepFn M mode st x)).1
    · show mode :: (pgdLoopSt M st k mode (pgdStepFn M mode st x)).2.2
        = List.replicate (k + 1) mode
      rw [(ih mode (pgdStepFn M mode st x)).2, List.replicate_succ]

theorem abs_clampQ_le (d e : ℚ) (he : 0 ≤ e) : |clampQ d (-e) e| ≤ e := by
  unfold clampQ
  rw [abs_le]
  constructor
  · apply le_min
    · exact le_max_right d (-e)
    · linarith
  · exact min_le_right _ _

/-- Claim C3: for every input, model, loss oracle, epsilon ≥ 0 and number of
steps, whenever perturb returns an adversarial sample it differs from the
original input by at most epsilon in absolute value at every element,
enforced by the single final clamp of the total displacement (on inputs
outside the loop's domain the call raises and returns nothing, so there is
no returned sample to bound). -/
theorem pgd_perturb_linf_bound (A : PGDAttack) (M : DiffModel) (mode : Bool)
    (input : TensorVar) (he : 0 ≤ A.epsilon)
    (res : Arr4 × TensorVar × Bool × List Bool)
    (hr : A.perturb M mode input = some res) (n c h w : ℕ) :
    |res.1 n c h w - input.t.data n c h w| ≤ A.epsilon := by
  unfold PGDAttack.perturb at hr
  by_cases hc : (input.requiresGrad ∧ 0 < A.num_steps)
  · rw [if_pos hc] at hr
    exact absurd hr (by simp)
  · rw [if_neg hc] at hr
    rw [Option.some.injEq] at hr
    subst hr
    show |(fun n2 c2 h2 w2 =>
        input.t.data n2 c2 h2 w2 +
          clampQ ((pgdLoopSt M A.step_size A.num_steps mode input.t.data).1 n2 c2 h2 w2
            - input.t.data n2 c2 h2 w2) (-A.epsilon) A.epsilon :
        Arr4) n c h w - input.t.data n c h w| ≤ A.epsilon
    have heq : (fun n2 c2 h2 w2 =>
          input.t.data n2 c2 h2 w2 +
            clampQ ((pgdLoopSt M A.step_size A.num_steps mode input.t.data).1 n2 c2 h2 w2
              - input.t.data n2 c2 h2 w2) (-A.epsilon) A.epsilon :
          Arr4) n c h w - input.t.data n c h w
        = clampQ ((pgdLoopSt M A.step_size A.num_steps mode input.t.data).1 n c h w
            - input.t.data n c h w) (-A.epsilon) A.epsilon := by
      show input.t.data n c h w
          + clampQ ((pgdLoopSt M A.step_size A.num_steps mode input.t.data).1 n c h w
              - input.t.data n c h w) (-A.epsilon) A.epsilon
          - input.t.data n c h w = _
      ring
    rw [heq]
    exact abs_clampQ_le _ _ he

/-- Witness for C3 at a concrete completed attack run (non-tracking input,
one step). -/
theorem pgd_perturb_linf_bound_witness :
    0 ≤ tinyAttack.epsilon
    ∧ ∃ res, tinyAttack.perturb tinyModel true plainVar = some res
        ∧ ∀ n c h w : ℕ,
            |res.1 n c h w - plainVar.t.data n c h w| ≤ tinyAttack.epsilon :=
  ⟨by norm_num [tinyAttack], _, rfl,
   fun n c h w => pgd_perturb_linf_bound tinyAttack tinyModel true plainVar
     (by norm_num [tinyAttack]) _ rfl n c h w⟩

/-- Claim C4: whenever the attack the code implements completes, its result
refines the specification's description - iterate `num_steps` times the
update that computes the loss against the least-confident (argmin) predicted
class, backpropagates, and subtracts `step_size * sign(gradient)`;
afterwards clip the total displacement to [-epsilon, epsilon] and add it
back to the input. -/
theorem pgd_perturb_refines_spec (A : PGDAttack) (M : DiffModel) (mode : Bool)
    (input : TensorVar) (res : Arr4 × TensorVar × Bool × List Bool)
    (hr : A.perturb M mode input = some res) :
    res.1 = perturbSpec M mode A.num_steps A.step_size A.epsilon input.t.data := by
  unfold PGDAttack.perturb at hr
  by_cases hc : (input.requiresGrad ∧ 0 < A.num_steps)
  · rw [if_pos hc] at hr
    exact absurd hr (by simp)
  · rw [if_neg hc] at hr
    rw [Option.some.injEq] at hr
    subst hr
    funext n c h w
    show input.t.data n c h w
        + clampQ ((pgdLoopSt M A.step_size A.num_steps mode input.t.data).1 n c h w
            - input.t.data n c h w) (-A.epsilon) A.epsilon = _
    rw [pgdLoopSt_fst M A.step_size A.num_steps mode input.t.data]
    rfl

/-- Witness for C4 at a concrete completed attack run. -/
theorem pgd_perturb_refines_spec_witness :
    ∃ res, tinyAttack.perturb tinyModel true plainVar = some res
      ∧ res.1 = perturbSpec tinyModel true tinyAttack.num_steps
          tinyAttack.step_size tinyAttack.epsilon plainVar.t.data :=
  ⟨_, rfl, pgd_perturb_refines_spec tinyAttack tinyModel true plainVar _ rfl⟩

/-- Counterexample to claim C8 as stated, at two concrete runs the source
completes.  First, a one-step attack on a non-tracking input (the clone is a
leaf, so the loop runs) with the model arriving in training mode: the single
model query happens in training mode, not inference mode.  Second, a
zero-step attack on a gradient-tracking input (line 646 is never reached):
the call returns, and the caller's input variable comes back mutated - its
requires_grad flag was cleared from True to False by line 642. -/
theorem pgd_perturb_frame_violation :
    (∃ res, tinyAttack.perturb tinyModel true plainVar = some res
        ∧ res.2.2.2 = [true])
    ∧ tinyVar.requiresGrad = true
    ∧ (∃ res, zeroStepAttack.perturb tinyModel true tinyVar = some res
        ∧ res.2.1.requiresGrad = false) :=
  ⟨⟨_, rfl, rfl⟩, rfl, ⟨_, rfl, rfl⟩⟩

/-- Claim C8 as amended: on the domain where the call completes (an input
that is not tracking gradients, or a zero-step run), perturb never touches
the model's mode flag - it is returned unchanged and every gradient query
runs in whatever mode the model already had (so the training state is
undisturbed across the repeated passes, but the attack does not itself force
inference mode: callers set it); the caller's input keeps its values and its
.grad field, but its requires_grad flag is set to False.  (With a
gradient-tracking input and at least one step the call instead raises at
line 646 and returns nothing.) -/
theorem pgd_perturb_frame (A : PGDAttack) (M : DiffModel) (mode : Bool)
    (input : TensorVar)
    (hok : input.requiresGrad = false ∨ A.num_steps = 0) :
    ∃ res, A.perturb M mode input = some res
      ∧ res.2.2.1 = mode
      ∧ res.2.2.2 = List.replicate A.num_steps mode
      ∧ res.2.1.t = input.t
      ∧ res.2.1.requiresGrad = false
      ∧ res.2.1.grad = input.grad := by
  have hc : ¬(input.requiresGrad ∧ 0 < A.num_steps) := by
    rcases hok with h | h
    · rintro ⟨h1, -⟩
      rw [h] at h1
      exact Bool.noConfusion h1
    · rintro ⟨-, h2⟩
      omega
  have heq : A.perturb M mode input = some
      (fun n c h w =>
          input.t.data n c h w +
            clampQ ((pgdLoopSt M A.step_size A.num_steps mode input.t.data).1 n c h w
              - input.t.data n c h w) (-A.epsilon) A.epsilon,
        { t := input.t, requiresGrad := false, grad := input.grad },
        (pgdLoopSt M A.step_size A.num_steps mode input.t.data).2.1,
        (pgdLoopSt M A.step_size A.num_steps mode input.t.data).2.2) := by
    unfold PGDAttack.perturb
    exact if_neg hc
  exact ⟨_, heq,
    (pgdLoopSt_modes M A.step_size A.num_steps mode input.t.data).1,
    (pgdLoopSt_modes M A.step_size A.num_steps mode input.t.data).2,
    rfl, rfl, rfl⟩

/-- Witness for the amended C8 at a concrete completed attack run. -/
theorem pgd_perturb_frame_witness :
    (plainVar.requiresGrad = false ∨ tinyAttack.num_steps = 0)
    ∧ ∃ res, tinyAttack.perturb tinyModel true plainVar = some res
        ∧ res.2.2.1 = true
        ∧ res.2.2.2 = List.replicate tinyAttack.num_steps true
        ∧ res.2.1.t = plainVar.t
        ∧ res.2.1.requiresGrad = false
        ∧ res.2.1.grad = plainVar.grad :=
  ⟨Or.inl rfl,
   pgd_perturb_frame tinyAttack tinyModel true plainVar (Or.inl rfl)⟩

/-- Claim C9: with num_steps = 0 the loop body never executes (in particular
line 646 is never reached, so the call completes for every input, tracking
or not) and the clamp of the zero displacement is a no-op, so perturb
returns the input values unchanged. -/
theorem pgd_perturb_zero_steps (A : PGDAttack) (M : DiffModel) (mode : Bool)
    (input : TensorVar) (h0 : A.num_steps = 0) (he : 0 ≤ A.epsilon) :
    ∃ res, A.perturb M mode input = some res
      ∧ ∀ n c h w : ℕ, res.1 n c h w = input.t.data n c h w := by
  have hc : ¬(input.requiresGrad ∧ 0 < A.num_steps) := by
    rintro ⟨-, h2⟩
    omega
  have heq : A.perturb M mode input = some
      (fun n c h w =>
          input.t.data n c h w +
            clampQ ((pgdLoopSt M A.step_size A.num_steps mode input.t.data).1 n c h w
              - input.t.data n c h w) (-A.epsilon) A.epsilon,
        { t := input.t, requiresGrad := false, grad := input.grad },
        (pgdLoopSt M A.step_size A.num_steps mode input.t.data).2.1,
        (pgdLoopSt M A.step_size A.num_steps mode input.t.data).2.2) := by
    unfold PGDAttack.perturb
    exact if_neg hc
  refine ⟨_, heq, ?_⟩
  intro n c h w
  show input.t.data n c h w
      + clampQ ((pgdLoopSt M A.step_size A.num_steps mode input.t.data).1 n c h w
          - input.t.data n c h w) (-A.epsilon) A.epsilon = input.t.data n c h w
  rw [h0]
  show input.t.data n c h w
      + clampQ (input.t.data n c h w - input.t.data n c h w)
          (-A.epsilon) A.epsilon = input.t.data n c h w
  rw [sub_self]
  unfold clampQ
  rw [max_eq_left (neg_nonpos.mpr he), min_eq_left he, add_zero]

/-- Witness for C9 at a concrete zero-step attack on a gradient-tracking
input (a case the source also completes). -/
theorem pgd_perturb_zero_steps_witness :
    zeroStepAttack.num_steps = 0 ∧ 0 ≤ zeroStepAttack.epsilon
    ∧ ∃ res, zeroStepAttack.perturb tinyModel true tinyVar = some res
        ∧ ∀ n c h w : ℕ, res.1 n c h w = tinyVar.t.data n c h w :=
  ⟨rfl, by norm_num [zeroStepAttack],
   pgd_perturb_zero_steps zeroStepAttack tinyModel true tinyVar rfl
     (by norm_num [zeroStepAttack])⟩

theorem qmaxAbs_nonneg (f : ℕ → ℚ) (k : ℕ) : 0 ≤ qmaxAbs f k := by
  induction k with
  | zero => exact le_refl 0
  | succ k ih =>
    show 0 ≤ max (qmaxAbs f k) |f k|
    exact le_trans ih (le_max_left _ _)

theorem qmaxAbs_le (f : ℕ → ℚ) : ∀ k c : ℕ, c < k → |f c| ≤ qmaxAbs f k := by
  intro k
  induction k with
  | zero => intro c hc; omega
  | succ k ih =>
    intro c hc
    show |f c| ≤ max (qmaxAbs f k) |f k|
    rcases Nat.lt_succ_iff_lt_or_eq.mp hc with h | h
    · exact le_trans (ih c h) (le_max_left _ _)
    · rw [h]
      exact le_max_right _ _

theorem qmaxAbs_mem (f : ℕ → ℚ) : ∀ k : ℕ, 0 < k → ∃ c, c < k ∧ qmaxAbs f k = |f c| := by
  intro k
  induction k with
  | zero => intro h; omega
  | succ k ih =>
    intro _
    rcases Nat.eq_zero_or_pos k with hk | hk
    · subst hk
      refine ⟨0, Nat.zero_lt_one, ?_⟩
      show max (qmaxAbs f 0) |f 0| = |f 0|
      exact max_eq_right (abs_nonneg _)
    · obtain ⟨c, hc, he⟩ := ih hk
      rcases le_total (qmaxAbs f k) |f k| with h | h
      · refine ⟨k, Nat.lt_succ_self k, ?_⟩
        show max (qmaxAbs f k) |f k| = |f k|
        exact max_eq_right h
      · refine ⟨c, Nat.lt_succ_of_lt hc, ?_⟩
        show max (qmaxAbs f k) |f k| = |f c|
        rw [max_eq_left h, he]

/-- Claim C7: for every input with at least one channel, explain computes
the loss against the model's own top-predicted (argmax) class, queries the
gradient once, and returns the per-pixel maximum of the absolute input
gradient across the channel axis as an (N, 1, H, W) map; the map is
therefore non-negative everywhere and single-channel regardless of the
input's channel count; the value at every pixel is an upper bound of the
per-channel absolute gradients and is attained by one of them. -/
theorem explain_saliency_map (M : DiffModel) (mode : Bool) (input : TensorVar)
    (hC : 0 < input.t.s1) :
    (GradAttention.explain M mode input).1.s0 = input.t.s0
    ∧ (GradAttention.explain M mode input).1.s1 = 1
    ∧ (GradAttention.explain M mode input).1.s2 = input.t.s2
    ∧ (GradAttention.explain M mode input).1.s3 = input.t.s3
    ∧ (∀ n h w : ℕ, 0 ≤ (GradAttention.explain M mode input).1.data n 0 h w)
    ∧ (∀ n h w c : ℕ, c < input.t.s1 →
        |M.gradLoss mode
            (fun n2 => argmaxIdx (fun j => M.predict mode input.t.data n2 j) M.nc)
            input.t.data n c h w|
          ≤ (GradAttention.explain M mode input).1.data n 0 h w)
    ∧ (∀ n h w : ℕ, ∃ c, c < input.t.s1 ∧
        (GradAttention.explain M mode input).1.data n 0 h w
          = |M.gradLoss mode
              (fun n2 => argmaxIdx (fun j => M.predict mode input.t.data n2 j) M.nc)
              input.t.data n c h w|) :=
  ⟨rfl, rfl, rfl, rfl,
   fun _ _ _ => qmaxAbs_nonneg _ input.t.s1,
   fun _ _ _ c hc => qmaxAbs_le _ input.t.s1 c hc,
   fun _ _ _ => qmaxAbs_mem _ input.t.s1 hC⟩

/-- Witness for C7 at a concrete single-channel run. -/
theorem explain_saliency_map_witness :
    0 < tinyVar.t.s1
    ∧ ((GradAttention.explain tinyModel true tinyVar).1.s0 = tinyVar.t.s0
      ∧ (GradAttention.explain tinyModel true tinyVar).1.s1 = 1
      ∧ (GradAttention.explain tinyModel true tinyVar).1.s2 = tinyVar.t.s2
      ∧ (GradAttention.explain tinyModel true tinyVar).1.s3 = tinyVar.t.s3
      ∧ (∀ n h w : ℕ,
          0 ≤ (GradAttention.explain tinyModel true tinyVar).1.data n 0 h w)
      ∧ (∀ n h w c : ℕ, c < tinyVar.t.s1 →
          |tinyModel.gradLoss true
              (fun n2 => argmaxIdx
                (fun j => tinyModel.predict true tinyVar.t.data n2 j) tinyModel.nc)
              tinyVar.t.data n c h w|
            ≤ (GradAttention.explain tinyModel true tinyVar).1.data n 0 h w)
      ∧ (∀ n h w : ℕ, ∃ c, c < tinyVar.t.s1 ∧
          (GradAttention.explain tinyModel true tinyVar).1.data n 0 h w
            = |tinyModel.gradLoss true
                (fun n2 => argmaxIdx
                  (fun j => tinyModel.predict true tinyVar.t.data n2 j) tinyModel.nc)
                tinyVar.t.data n c h w|)) :=
  ⟨by decide, explain_saliency_map tinyModel true tinyVar (by decide)⟩

/-- Claim C10: explain mutates the caller's input variable as a side effect -
after the call its requires_grad flag is left True and its .grad field is
left holding exactly the gradient of this backward pass (the stale gradient
having been zeroed before accumulating), while the numeric values are
unchanged. -/
theorem explain_mutates_input_var (M : DiffModel) (mode : Bool) (input : TensorVar) :
    (GradAttention.explain M mode input).2.requiresGrad = true
    ∧ (GradAttention.explain M mode input).2.grad
        = some (M.gradLoss mode
            (fun n => argmaxIdx (fun j => M.predict mode input.t.data n j) M.nc)
            input.t.data)
    ∧ (GradAttention.explain M mode input).2.t = input.t :=
  ⟨rfl, rfl, rfl⟩
